import Mathlib

/-!
Shallow embedding of the text-normalization pipeline of
src/fix_math_delims_clipboard.py (the clipboard I/O boundary is excluded;
the embedded core is the function chain inside convert).

Strings are modelled as List Char.  Each Python regex substitution is
hand-compiled to an explicit scanner that reproduces the leftmost-match,
greedy/lazy backtracking semantics of the specific pattern, documented at
each definition.  Python IndexError (out-of-range protection-table lookup
in _unprotect / _unprotect_inl_only) is modelled by Option: convert returns
none exactly where the Python code raises.
-/

set_option maxRecDepth 20000

namespace FixMathDelims

abbrev Str := List Char

/-- Whitespace as matched by the Python regex class backslash-s and by
str.strip, restricted to the ASCII range: space, tab, newline, carriage
return, vertical tab, form feed. -/
def pyIsSpace (c : Char) : Bool :=
  c = ' ' || c = '\t' || c = '\n' || c = '\r' || c = Char.ofNat 11 || c = Char.ofNat 12

/-- ASCII decimal digit, the regex class backslash-d. -/
def isDigitC (c : Char) : Bool := '0' ≤ c && c ≤ '9'

/-- ASCII letter, the regex class A-Za-z. -/
def isAlphaC (c : Char) : Bool := ('a' ≤ c && c ≤ 'z') || ('A' ≤ c && c ≤ 'Z')

/-- ASCII letter or digit, the regex class A-Za-z0-9. -/
def isAlnumC (c : Char) : Bool := isAlphaC c || isDigitC c

/-- Python str.lstrip(). -/
def lstripWs (s : Str) : Str := s.dropWhile pyIsSpace

/-- Python str.rstrip(). -/
def rstripWs (s : Str) : Str := (s.reverse.dropWhile pyIsSpace).reverse

/-- Python str.strip(). -/
def stripWs (s : Str) : Str := rstripWs (lstripWs s)

/-- Python str.strip of newline characters only, as in env_body.strip of
a newline, used by _fix_matrix_rows. -/
def stripNlEnds (s : Str) : Str :=
  ((s.dropWhile (· = '\n')).reverse.dropWhile (· = '\n')).reverse

/-- Helper for splitlines: accumulator-based scan recognising the line
terminators newline, carriage return, and carriage return + newline. -/
def splitlinesGo : Str → Str → List Str
  | [], acc => if acc = [] then [] else [acc.reverse]
  | '\r' :: '\n' :: rest, acc => acc.reverse :: splitlinesGo rest []
  | '\n' :: rest, acc => acc.reverse :: splitlinesGo rest []
  | '\r' :: rest, acc => acc.reverse :: splitlinesGo rest []
  | c :: rest, acc => splitlinesGo rest (c :: acc)

/-- Python str.splitlines() (restricted to the terminators that can occur
in this development: newline, carriage return, and their pair; a trailing
terminator produces no final empty line, and the empty string yields an
empty list). -/
def splitlines (s : Str) : List Str := splitlinesGo s []

/-- Join a list of lines with single newlines: Python newline .join(lines). -/
def joinNl (lines : List Str) : Str := List.intercalate ['\n'] lines

/-- Substring occurrence test: Python's needle in hay. -/
def containsSubstr (needle hay : Str) : Bool :=
  hay.tails.any (fun t => needle.isPrefixOf t)

/-- Decimal digit character for n < 10. -/
def digitChar (n : Nat) : Char := Char.ofNat (48 + n)

/-- Fuelled decimal rendering loop. -/
def natToCharsAux : Nat → Nat → Str → Str
  | 0, _, acc => acc
  | fuel + 1, n, acc =>
    if n < 10 then digitChar n :: acc
    else natToCharsAux fuel (n / 10) (digitChar (n % 10) :: acc)

/-- Decimal rendering of a natural number, for building placeholder
tokens such as the MATH and INL tags. -/
def natToChars (n : Nat) : Str := natToCharsAux (n + 1) n []

/-- Decimal parsing of a digit run, Python int applied to a match group. -/
def digitsToNat (ds : Str) : Nat := ds.foldl (fun a c => a * 10 + (c.toNat - 48)) 0

/-- Generic left-to-right single-pass substitution driver mirroring re.sub:
at each position the matcher sees the previous original character (for
lookbehind and line anchors) and the current suffix; on success it returns
the replacement and the number of consumed characters (always at least one
for every pattern in this file), and scanning resumes after the consumed
region of the original string. -/
def subGo (f : Option Char → Str → Option (Str × Nat)) : Nat → Option Char → Str → Str
  | 0, _, s => s
  | _ + 1, _, [] => []
  | fuel + 1, prev, c :: cs =>
    match f prev (c :: cs) with
    | some (rep, n) =>
      let n' := max n 1
      rep ++ subGo f fuel (((c :: cs).take n').getLast?) ((c :: cs).drop n')
    | none => c :: subGo f fuel (some c) cs

/-- Run a substitution over a whole string. -/
def runSub (f : Option Char → Str → Option (Str × Nat)) (s : Str) : Str :=
  subGo f (s.length + 1) none s

/-- Variant of the substitution driver that threads the protection table
(the sent list of the Python code) through the replacements. -/
def subStGo (f : Str → List Str → Option (Str × Nat × List Str)) :
    Nat → Str → List Str → Str × List Str
  | 0, s, st => (s, st)
  | _ + 1, [], st => ([], st)
  | fuel + 1, c :: cs, st =>
    match f (c :: cs) st with
    | some (rep, n, st') =>
      let n' := max n 1
      let out := subStGo f fuel ((c :: cs).drop n') st'
      (rep ++ out.1, out.2)
    | none =>
      let out := subStGo f fuel cs st
      (c :: out.1, out.2)

/-- Run a table-threading substitution over a whole string. -/
def runSubSt (f : Str → List Str → Option (Str × Nat × List Str)) (s : Str)
    (st : List Str) : Str × List Str :=
  subStGo f (s.length + 1) s st

/-- Backslash-r optional then backslash-n: the regex fragment used by the
fence, square-bracket and one-line-display patterns; returns the number of
consumed characters. -/
def eatNl : Str → Option Nat
  | '\r' :: '\n' :: _ => some 2
  | '\n' :: _ => some 1
  | _ => none

/-- Find the earliest offset where the closing of a code fence starts:
the regex tail fragment of BACKTICK_FENCE_RE (optional carriage return,
newline, three backticks); returns the consumed length from that offset. -/
def findCloseFence : Str → Option Nat
  | [] => none
  | s@(_ :: cs) =>
    match eatNl s with
    | some k =>
      if ("```".data).isPrefixOf (s.drop k) then some (k + 3)
      else (findCloseFence cs).map (· + 1)
    | none => (findCloseFence cs).map (· + 1)

/-- BACKTICK_FENCE_RE: three backticks, a run of non-newline characters,
a line break, a lazy any-character body, a line break, three backticks.
Returns the total matched length. -/
def matchFence (s : Str) : Option Nat :=
  if ("```".data).isPrefixOf s then
    let r1 := s.drop 3
    let info := (r1.takeWhile (fun c => c ≠ '\r' && c ≠ '\n')).length
    let r2 := r1.drop info
    match eatNl r2 with
    | some k =>
      match findCloseFence (r2.drop k) with
      | some m => some (3 + info + k + m)
      | none => none
    | none => none
  else none

/-- INLINE_CODE_RE: a backtick, a run of characters that are neither
backtick nor newline, a backtick. Returns the total matched length. -/
def matchInlineCode (s : Str) : Option Nat :=
  match s with
  | c :: r =>
    if c = Char.ofNat 96 then
      let run := (r.takeWhile (fun d => d ≠ Char.ofNat 96 && d ≠ '\r' && d ≠ '\n')).length
      if (r.get? run) = some (Char.ofNat 96) then some (run + 2) else none
    else none
  | [] => none

/-- The keep closure of _protect: append the matched text to the table and
emit a placeholder token with the given tag. -/
def keepTok (tag : Str) (matched : Str) (st : List Str) : Str × Nat × List Str :=
  ("@@".data ++ tag ++ "_".data ++ natToChars st.length ++ "@@".data,
   matched.length, st ++ [matched])

/-- The _protect pass: mask every code fence, then every inline code span,
appending each verbatim match to the shared table. -/
def protect (text : Str) : Str × List Str :=
  let p1 := runSubSt (fun s st => (matchFence s).map (fun n => keepTok "CODEFENCE".data (s.take n) st)) text []
  runSubSt (fun s st => (matchInlineCode s).map (fun n => keepTok "INLINE".data (s.take n) st)) p1.1 p1.2

/-- Earliest occurrence of two adjacent dollar signs; returns the offset
plus the two consumed characters. -/
def findDollars : Str → Option Nat
  | [] => none
  | s@(_ :: cs) =>
    if ("$$".data).isPrefixOf s then some 2 else (findDollars cs).map (· + 1)

/-- DOLLAR_BLOCK_RE and MATH_BLOCK_RE: two dollars, a lazy any-character
body, two dollars. Returns the total matched length. -/
def matchDollarBlock (s : Str) : Option Nat :=
  if ("$$".data).isPrefixOf s then (findDollars (s.drop 2)).map (fun m => 2 + m) else none

/-- The _protect_math pass: mask every pre-existing display-math block,
appending to the shared table with the MATH tag. -/
def protect_math (text : Str) (st : List Str) : Str × List Str :=
  runSubSt (fun s st => (matchDollarBlock s).map (fun n => keepTok "MATH".data (s.take n) st)) text st

/-- Parse one placeholder alternative: the tag literal, an underscore, a
nonempty digit run, two at-signs; returns consumed length (from after the
leading two at-signs) and the parsed index. -/
def matchTokenTag (tag : Str) (s : Str) : Option (Nat × Nat) :=
  if tag.isPrefixOf s then
    match s.drop tag.length with
    | '_' :: r2 =>
      let ds := r2.takeWhile isDigitC
      if ds ≠ [] && ("@@".data).isPrefixOf (r2.drop ds.length) then
        some (tag.length + 1 + ds.length + 2, digitsToNat ds)
      else none
    | _ => none
  else none

/-- Placeholder-token matcher for a given list of tag alternatives, tried
in order as the regex alternation does. Returns total consumed length and
the numeric index. -/
def matchUnprotectTok (tags : List Str) (s : Str) : Option (Nat × Nat) :=
  if ("@@".data).isPrefixOf s then
    (tags.findSome? (fun t => matchTokenTag t (s.drop 2))).map
      (fun p => (p.1 + 2, p.2))
  else none

/-- Substitution driver for the unprotect passes: a matched token whose
index is outside the table makes the whole pass fail (Python IndexError). -/
def unprotectGo (tags : List Str) (sent : List Str) : Nat → Str → Option Str
  | 0, s => some s
  | _ + 1, [] => some []
  | fuel + 1, s@(c :: cs) =>
    match matchUnprotectTok tags s with
    | some (n, idx) =>
      match sent.get? idx with
      | some rep => (unprotectGo tags sent fuel (s.drop n)).map (rep ++ ·)
      | none => none
    | none => (unprotectGo tags sent fuel cs).map (c :: ·)

/-- The _unprotect pass: replace every CODEFENCE, INLINE, MATH or INL
placeholder with the corresponding table entry. -/
def unprotect (text : Str) (sent : List Str) : Option Str :=
  unprotectGo ["CODEFENCE".data, "INLINE".data, "MATH".data, "INL".data] sent
    (text.length + 1) text

/-- The _unprotect_inl_only pass: replace only INL placeholders. -/
def unprotect_inl_only (text : Str) (sent : List Str) : Option Str :=
  unprotectGo ["INL".data] sent (text.length + 1) text

/-- The LaTeX control-sequence alternatives of LATEX_TOKENS_RE. -/
def latexTokens : List Str :=
  ["\\frac", "\\partial", "\\nabla", "\\mathbf", "\\mathrm", "\\mathbb",
   "\\vec", "\\hat", "\\dot", "\\ddot", "\\sum", "\\int", "\\cdot",
   "\\alpha", "\\beta", "\\gamma", "\\delta", "\\theta", "\\lambda", "\\mu",
   "\\sigma", "\\phi", "\\psi", "\\Omega", "\\infty", "\\leq", "\\geq",
   "\\neq", "\\approx", "\\rightarrow", "\\left", "\\right", "\\begin",
   "\\end", "\\displaystyle", "\\boxed"].map String.data

/-- looks_like_latex: LATEX_TOKENS_RE.search, a substring test against the
fixed alternation. -/
def looks_like_latex (s : Str) : Bool := latexTokens.any (fun t => containsSubstr t s)

/-- The operator class of MATHISH_OP_RE (note that it contains the hyphen). -/
def mathishOps : Str := "=+-*/^_".data

/-- MATHISH_OP_RE.search: does the string contain an operator character. -/
def hasMathishOp (s : Str) : Bool := s.any (fun c => mathishOps.contains c)

/-- The replacement closure of convert_code_fences: re-emit the fence
unless its first line starts with a latex or tex language tag, in which
case the interior lines become a display block. -/
def codeFenceRepl (fence : Str) : Str :=
  let lines := splitlines fence
  let first := stripWs (lines.headD [])
  let body := stripWs (joinNl ((lines.drop 1).dropLast))
  if ("```latex".data).isPrefixOf first || ("```tex".data).isPrefixOf first then
    "$$\n".data ++ body ++ "\n$$".data
  else fence

/-- convert_code_fences: BACKTICK_FENCE_RE.sub with codeFenceRepl. -/
def convert_code_fences (text : Str) : Str :=
  runSub (fun _ s => (matchFence s).map (fun n => (codeFenceRepl (s.take n), n))) text

/-- Earliest offset at which pat occurs as a prefix of the suffix. -/
def findSub (pat : Str) : Str → Option Nat
  | [] => if pat = [] then some 0 else none
  | s@(_ :: cs) => if pat.isPrefixOf s then some 0 else (findSub pat cs).map (· + 1)

/-- First rewrite of convert_backslash_brackets: backslash-bracket display
form. The pattern (backslash-open-bracket, greedy whitespace, lazy body,
greedy whitespace, backslash-close-bracket) matches from a backslash-open
to the first backslash-close, and the captured group is the stripped
interior. -/
def matchBsBracket (s : Str) : Option (Str × Nat) :=
  if (['\\', '[']).isPrefixOf s then
    (findSub ['\\', ']'] (s.drop 2)).map (fun j =>
      (stripWs ((s.drop 2).take j), 2 + j + 2))
  else none

/-- Second rewrite of convert_backslash_brackets: backslash-parenthesis
inline form. Leading greedy whitespace (which may include newlines), then
a lazy newline-free body, then greedy whitespace, then the closer; the
body is the shortest newline-free stretch from which a whitespace run
reaches the closer. -/
def matchBsParen (s : Str) : Option (Str × Nat) :=
  if (['\\', '(']).isPrefixOf s then
    let r := s.drop 2
    let a := (r.takeWhile pyIsSpace).length
    let body := r.drop a
    let n := (body.takeWhile (fun c => c ≠ '\r' && c ≠ '\n')).length
    (List.range (n + 1)).findSome? (fun q =>
      let t := body.drop q
      let w := (t.takeWhile pyIsSpace).length
      if (['\\', ')']).isPrefixOf (t.drop w) then
        some (body.take q, 2 + a + q + w + 2)
      else none)
  else none

/-- convert_backslash_brackets: the display rewrite then the inline
rewrite. -/
def convert_backslash_brackets (text : Str) : Str :=
  let t1 := runSub (fun _ s => (matchBsBracket s).map (fun p =>
    ("$$\n".data ++ p.1 ++ "\n$$".data, p.2))) text
  runSub (fun _ s => (matchBsParen s).map (fun p =>
    ('$' :: p.1 ++ ['$'], p.2))) t1

/-- Tail of the square-bracket block pattern from a candidate offset in the
body: a line break, horizontal space, the closing bracket, horizontal
space, then a multiline end-of-line anchor (next char is a newline or the
end). Returns the body offset and consumed length from there. -/
def closeSqHere (s : Str) : Option Nat :=
  match eatNl s with
  | some k =>
    let r := s.drop k
    let w := (r.takeWhile (fun c => c = ' ' || c = '\t')).length
    match r.drop w with
    | ']' :: r2 =>
      let w2 := (r2.takeWhile (fun c => c = ' ' || c = '\t')).length
      match r2.drop w2 with
      | [] => some (k + w + 1 + w2)
      | '\n' :: _ => some (k + w + 1 + w2)
      | _ => none
    | _ => none
  | none => none

/-- Earliest square-bracket block closer in the body. -/
def closeSq : Str → Option (Nat × Nat)
  | [] => none
  | s@(_ :: cs) =>
    match closeSqHere s with
    | some n => some (0, n)
    | none => (closeSq cs).map (fun p => (p.1 + 1, p.2))

/-- The multiline pattern of convert_square_bracket_blocks: at a line
start, horizontal space, an opening bracket alone on its line, a lazy
body, then a closing bracket alone on its line. Returns the captured body
and total consumed length. -/
def matchSqBlock (prev : Option Char) (s : Str) : Option (Str × Nat) :=
  if prev = none || prev = some '\n' then
    let a := (s.takeWhile (fun c => c = ' ' || c = '\t')).length
    match s.drop a with
    | '[' :: r1 =>
      let b := (r1.takeWhile (fun c => c = ' ' || c = '\t')).length
      let r2 := r1.drop b
      match eatNl r2 with
      | some k =>
        (closeSq (r2.drop k)).map (fun p =>
          ((r2.drop k).take p.1, a + 1 + b + k + p.1 + p.2))
      | none => none
    | _ => none
  else none

/-- convert_square_bracket_blocks: replace each block with a display block
of the stripped body, padded by single newlines. -/
def convert_square_bracket_blocks (text : Str) : Str :=
  runSub (fun prev s => (matchSqBlock prev s).map (fun p =>
    ("\n$$\n".data ++ stripWs p.1 ++ "\n$$\n".data, p.2))) text

/-- The stack-based parenthesis scan of protect_outer_math_parens: each
closing parenthesis pops the stack and records a start-end pair, in
closing order. -/
def collectPairs (s : Str) : List (Nat × Nat) :=
  (s.enum.foldl (fun (st : List Nat × List (Nat × Nat)) ic =>
    match ic.2, st.1 with
    | '(', _ => (ic.1 :: st.1, st.2)
    | ')', a :: rest => (rest, st.2 ++ [(a, ic.1)])
    | _, _ => st) ([], [])).2

/-- is_math_outer: no dollar inside, stripped length at least five, and an
operator character or a LaTeX token. -/
def is_math_outer (content : Str) : Bool :=
  if content.contains '$' then false
  else
    let c := stripWs content
    if c.length < 5 then false
    else hasMathishOp c || looks_like_latex c

/-- Sort key of the candidate list: start ascending, end descending. -/
def candLE (p q : Nat × Nat) : Bool :=
  p.1 < q.1 || (p.1 = q.1 && q.2 ≤ p.2)

/-- Insert an element into an already sorted list after every element
less-or-equal to it, preserving the stability of Python's sort. -/
def insertStable (le : α → α → Bool) (a : α) : List α → List α
  | [] => [a]
  | b :: rest => if le b a then b :: insertStable le a rest else a :: b :: rest

/-- Stable insertion sort (Python list.sort and sorted are stable; the
keys used here admit no ties, so any correct sort agrees). -/
def stableSort (le : α → α → Bool) (l : List α) : List α :=
  l.foldl (fun acc a => insertStable le a acc) []

/-- Greedy selection of maximal non-overlapping candidates: skip any
candidate fully contained in an already selected one. -/
def selectOuter (cand : List (Nat × Nat)) : List (Nat × Nat) :=
  cand.foldl (fun sel ab =>
    if sel.any (fun pb => pb.1 ≤ ab.1 && ab.2 ≤ pb.2) then sel
    else sel ++ [ab]) []

/-- Rebuild step of protect_outer_math_parens: splice placeholder tokens
over the selected spans, recording the wrapped interior (display form when
it contains a newline or a begin-environment opener, inline otherwise). -/
def rebuildOuter (s : Str) (sel : List (Nat × Nat)) (sent : List Str) : Str × List Str :=
  let res := sel.foldl (fun (st : Str × Nat × List Str) ab =>
    if ab.1 < st.2.1 then st
    else
      let inner := stripWs ((s.drop (ab.1 + 1)).take (ab.2 - ab.1 - 1))
      let token := "@@INL_".data ++ natToChars st.2.2.length ++ "@@".data
      let entry :=
        if inner.contains '\n' || containsSubstr ("\\begin\x7b".data) inner then
          "$$".data ++ inner ++ "$$".data
        else '$' :: inner ++ ['$']
      (st.1 ++ ((s.drop st.2.1).take (ab.1 - st.2.1)) ++ token, ab.2 + 1,
       st.2.2 ++ [entry])) ([], 0, sent)
  (res.1 ++ s.drop res.2.1, res.2.2)

/-- protect_outer_math_parens: collect parenthesis pairs, keep those whose
interior passes is_math_outer, sort by start ascending and end descending,
select outermost non-overlapping spans, and splice INL placeholders. -/
def protect_outer_math_parens (s : Str) (sent : List Str) : Str × List Str :=
  let pairs := collectPairs s
  if pairs = [] then (s, sent)
  else
    let cand := pairs.filter (fun ab =>
      is_math_outer ((s.drop (ab.1 + 1)).take (ab.2 - ab.1 - 1)))
    if cand = [] then (s, sent)
    else
      let sorted := stableSort candLE cand
      let sel := stableSort (fun p q => p.1 ≤ q.1) (selectOuter sorted)
      rebuildOuter s sel sent

/-- The restricted character class of convert_token_paren_numeric. -/
def tokenCls (c : Char) : Bool :=
  isAlnumC c || (" ,+-*/^_=.:;\\".data).contains c

/-- The pattern of convert_token_paren_numeric: a letter or digit, an
opening parenthesis, greedy whitespace, a lazy nonempty run over the
restricted class, greedy whitespace, a closing parenthesis. The leading
whitespace run backtracks (descending) because the class itself contains
the space character. Returns the leading character, the captured inner
group, and total consumed length. -/
def matchTokenParen (s : Str) : Option (Char × Str × Nat) :=
  match s with
  | p :: '(' :: r =>
    if isAlnumC p then
      let aMax := (r.takeWhile pyIsSpace).length
      ((List.range (aMax + 1)).reverse).findSome? (fun a =>
        let body := r.drop a
        let m := (body.takeWhile tokenCls).length
        (List.range m).findSome? (fun i =>
          let q := i + 1
          let t := body.drop q
          let w := (t.takeWhile pyIsSpace).length
          match t.drop w with
          | ')' :: _ => some (p, body.take q, 2 + a + q + w + 1)
          | _ => none))
    else none
  | _ => none

/-- convert_token_paren_numeric: wrap each match as inline math with the
stripped inner group. -/
def convert_token_paren_numeric (text : Str) : Str :=
  runSub (fun _ s => (matchTokenParen s).map (fun pr =>
    ('$' :: pr.1 :: '(' :: stripWs pr.2.1 ++ ")$".data, pr.2.2))) text

/-- The short-variable allow list of convert_inline_parentheses. -/
def allowSet : List Str := ["x", "y", "z", "T", "v", "u"].map String.data

/-- The differential-variable shape: re.match of caret d [A-Za-z]+ dollar
(a leading d, one or more letters, then the end or a single trailing
newline). -/
def isDWord (s : Str) : Bool :=
  match s with
  | 'd' :: rest =>
    let run := (rest.takeWhile isAlphaC).length
    run ≥ 1 && (rest.drop run = [] || rest.drop run = ['\n'])
  | _ => false

/-- The function-application shape of the classifier: an anchored letter,
greedy whitespace, a parenthesized argument with no nested parentheses and
no newline, then the end (or a single trailing newline). -/
def funcShape (s : Str) : Bool :=
  match s with
  | c :: r =>
    isAlphaC c &&
      (let w := (r.takeWhile pyIsSpace).length
       match r.drop w with
       | '(' :: r2 =>
         let run := (r2.takeWhile (fun d => d ≠ '(' && d ≠ ')' && d ≠ '\n')).length
         (match r2.drop run with
          | ')' :: rest => rest = [] || rest = ['\n']
          | _ => false)
       | _ => false)
  | [] => false

/-- is_inline_math_candidate: the cascading classifier of
convert_inline_parentheses. Note that its operator set omits the hyphen. -/
def is_inline_math_candidate (s : Str) : Bool :=
  looks_like_latex s ||
  ("=+*/^_".data).any (fun ch => s.contains ch) ||
  s.any isDigitC ||
  funcShape s ||
  (allowSet.contains s || isDWord s)

/-- The character class of the two span patterns of
convert_inline_parentheses: anything but parentheses and line breaks. -/
def parenFree (c : Char) : Bool :=
  c ≠ '(' && c ≠ ')' && c ≠ '\r' && c ≠ '\n'

/-- The double-parenthesis pattern of convert_inline_parentheses: two
opening parentheses, one to one hundred sixty characters free of
parentheses and newlines, two closing parentheses. -/
def matchDoubleParen (s : Str) : Option (Str × Nat) :=
  match s with
  | '(' :: '(' :: r =>
    if 1 ≤ (r.takeWhile parenFree).length && (r.takeWhile parenFree).length ≤ 160 then
      match r.drop (r.takeWhile parenFree).length with
      | ')' :: ')' :: _ =>
        some (r.take (r.takeWhile parenFree).length, (r.takeWhile parenFree).length + 4)
      | _ => none
    else none
  | _ => none

/-- The single-parenthesis pattern of convert_inline_parentheses. -/
def matchSingleParen (s : Str) : Option (Str × Nat) :=
  match s with
  | '(' :: r =>
    if 1 ≤ (r.takeWhile parenFree).length && (r.takeWhile parenFree).length ≤ 160 then
      match r.drop (r.takeWhile parenFree).length with
      | ')' :: _ => some (r.take (r.takeWhile parenFree).length, (r.takeWhile parenFree).length + 2)
      | _ => none
    else none
  | _ => none

/-- The repl closure of convert_inline_parentheses for single spans:
reject interiors with brackets or dollars, accept allow-list words,
differential shapes, and classifier hits; otherwise leave the match
unchanged. -/
def inlineParenRepl (inner whole : Str) : Str :=
  if inner.contains '\n' || inner.contains '[' || inner.contains ']' ||
      inner.contains '$' then whole
  else if allowSet.contains (stripWs inner) || isDWord (stripWs inner) then
    '$' :: stripWs inner ++ ['$']
  else if is_inline_math_candidate (stripWs inner) then '$' :: stripWs inner ++ ['$']
  else whole

/-- The first substitution of convert_inline_parentheses: every
double-layer span is wrapped unconditionally, without consulting the
classifier (its replacement lambda only strips the interior). -/
def double_paren_sub (text : Str) : Str :=
  runSub (fun _ s => (matchDoubleParen s).map (fun p =>
    ("$(".data ++ stripWs p.1 ++ ")$".data, p.2))) text

/-- The second substitution of convert_inline_parentheses: single-layer
spans filtered through the repl closure. -/
def single_paren_sub (text : Str) : Str :=
  runSub (fun _ s => (matchSingleParen s).map (fun p =>
    (inlineParenRepl p.1 (s.take p.2), p.2))) text

/-- convert_inline_parentheses: the unconditional double-layer rewrite,
then the classifier-guarded single-layer rewrite. -/
def convert_inline_parentheses (text : Str) : Str :=
  single_paren_sub (double_paren_sub text)

/-- The environment names of MATRIX_ENV_RE, in alternation order. -/
def envNames : List Str :=
  ["bmatrix", "pmatrix", "vmatrix", "Bmatrix", "Vmatrix", "matrix", "cases"].map String.data

/-- MATRIX_ENV_RE: a begin-environment opener with one of the fixed names,
a lazy body, and the matching end-environment closer (the backreference
makes the closer name equal the opener name). Returns the name, the body,
and the total consumed length. -/
def matchMatrixEnv (s : Str) : Option (Str × Str × Nat) :=
  if ("\\begin\x7b".data).isPrefixOf s then
    envNames.findSome? (fun nm =>
      if (nm ++ ['\x7d']).isPrefixOf (s.drop 7) then
        let r := s.drop (7 + nm.length + 1)
        (findSub ("\\end\x7b".data ++ nm ++ ['\x7d']) r).map (fun j =>
          (nm, r.take j, 7 + nm.length + 1 + j + 5 + nm.length + 1))
      else none)
  else none

/-- Blank-row test of _fix_matrix_rows: Python not r.strip(). -/
def isBlankRow (r : Str) : Bool := stripWs r = []

/-- Step one of _fix_matrix_rows: the substitution replacing a final
single backslash (not preceded by a backslash) plus trailing whitespace
with a single backslash. Finds the leftmost such position. -/
def rule1Find (l : Str) : Option Nat :=
  (List.range l.length).findSome? (fun j =>
    if (l.get? j == some '\\') && (j == 0 || !(l.get? (j - 1) == some '\\')) &&
        (l.drop (j + 1)).all pyIsSpace then
      some j
    else none)

/-- Step one of _fix_matrix_rows applied to a line: note the replacement
is a single backslash, so on an already right-stripped line this is the
identity. -/
def rule1Line (l : Str) : Str :=
  match rule1Find l with
  | some j => l.take j ++ ['\\']
  | none => l

/-- The optional bracketed point group of the row-separator patterns: an
opening bracket, a nonempty digit run, the letters pt, a closing bracket;
returns the rest on success. -/
def matchPtGroup (r : Str) : Option Str :=
  match r with
  | '[' :: r1 =>
    let ds := r1.takeWhile isDigitC
    if ds ≠ [] && ("pt]".data).isPrefixOf (r1.drop ds.length) then
      some (r1.drop (ds.length + 3))
    else none
  | _ => none

/-- Leftmost start of a suffix match of the row-separator tail pattern:
two backslashes, an optional bracketed point group, then whitespace to the
end. The optional group is greedy. -/
def sepTailFind (core : Str) : Option Nat :=
  (List.range core.length).findSome? (fun j =>
    if (core.get? j == some '\\') && (core.get? (j + 1) == some '\\') then
      let r := core.drop (j + 2)
      if (match matchPtGroup r with
          | some rest => rest.all pyIsSpace
          | none => false) then some j
      else if r.all pyIsSpace then some j
      else none
    else none)

/-- Step two of _fix_matrix_rows: the anchored match of a lazy prefix, an
unescaped opening bracket, whitespace, a digit run with pt, whitespace,
the closing bracket, whitespace to the end. Returns the prefix before the
bracket and the digit run. -/
def matchPtSuffix (line : Str) : Option (Str × Str) :=
  (List.range line.length).findSome? (fun k =>
    if (line.get? k == some '[') && (k == 0 || !(line.get? (k - 1) == some '\\')) then
      let r := line.drop (k + 1)
      let w := (r.takeWhile pyIsSpace).length
      let r2 := r.drop w
      let ds := r2.takeWhile isDigitC
      if ds ≠ [] && ("pt".data).isPrefixOf (r2.drop ds.length) then
        let r4 := r2.drop (ds.length + 2)
        let w2 := (r4.takeWhile pyIsSpace).length
        match r4.drop w2 with
        | ']' :: r5 => if r5.all pyIsSpace then some (line.take k, ds) else none
        | _ => none
      else none
    else none)

/-- Step three test of _fix_matrix_rows: the search for a row ending in a
row separator (two backslashes, optionally a bracketed point group) or a
row-continuation ampersand, allowing trailing whitespace. -/
def rowSepCheck (line : Str) : Bool :=
  (sepTailFind line).isSome || (rstripWs line).getLast? == some '&'

/-- Per-row transformation of _fix_matrix_rows: right-strip, pass blank
rows through, normalize a lone trailing backslash, merge a trailing
bracketed point annotation onto a separator, and append a separator to a
non-final row that lacks one. -/
def fixRow (isLastNonempty : Bool) (raw : Str) : Str :=
  let line := rstripWs raw
  if line = [] then line
  else
    let line := rule1Line line
    match matchPtSuffix line with
    | some (core0, ds) =>
      let core1 := rstripWs core0
      let core2 :=
        match sepTailFind core1 with
        | some j => core1.take j ++ ['\\']
        | none => core1
      core2 ++ "\\\\[".data ++ ds ++ "pt]".data
    | none =>
      if rowSepCheck line then line
      else if isLastNonempty then line
      else line ++ "\\\\".data

/-- Row-list transformation of _fix_matrix_rows: each row is fixed with
the knowledge of whether every following row is blank. -/
def fixRows : List Str → List Str
  | [] => []
  | r :: rest => fixRow (rest.all isBlankRow) r :: fixRows rest

/-- _fix_matrix_rows: strip boundary newlines, split into lines, fix each
row, rejoin with newlines. -/
def fixMatrixRows (envBody : Str) : Str :=
  joinNl (fixRows (splitlines (stripNlEnds envBody)))

/-- The fix_env closure of fix_matrices_in_math_blocks. -/
def fixEnvRepl (env body : Str) : Str :=
  "\\begin\x7b".data ++ env ++ "\x7d\n".data ++ fixMatrixRows body ++
    "\n\\end\x7b".data ++ env ++ ['\x7d']

/-- MATH_BLOCK_RE.sub with a replacement computed from the interior. -/
def subMathBlocks (f : Str → Str) (text : Str) : Str :=
  runSub (fun _ s => (matchDollarBlock s).map (fun n =>
    (f ((s.drop 2).take (n - 4)), n))) text

/-- fix_matrices_in_math_blocks: inside every display block, rewrite every
matrix-like or cases environment with the row fixer. -/
def fix_matrices_in_math_blocks (text : Str) : Str :=
  subMathBlocks (fun inner =>
    "$$".data ++
      runSub (fun _ s => (matchMatrixEnv s).map (fun pr =>
        (fixEnvRepl pr.1 pr.2.1, pr.2.2))) inner ++
      "$$".data) text

/-- fix_trailing_single_slashes_in_math: inside every display block, apply
the lone-trailing-backslash substitution per line and rewrap the body on
its own lines. -/
def fix_trailing_single_slashes_in_math (text : Str) : Str :=
  subMathBlocks (fun inner =>
    "$$\n".data ++ joinNl ((splitlines inner).map rule1Line) ++ "\n$$".data) text

/-- End-environment closer of ENV_IN_INLINE_RE: the end opener, a nonempty
run of letters or stars, a closing brace. -/
def matchEnvEnd (t : Str) : Option Nat :=
  if ("\\end\x7b".data).isPrefixOf t then
    let r := t.drop 5
    let nm := r.takeWhile (fun c => isAlphaC c || c = '*')
    if nm ≠ [] && (r.get? nm.length == some '\x7d') then some (5 + nm.length + 1)
    else none
  else none

/-- Earliest end-environment closer, with offset and consumed length. -/
def findEnvEnd : Str → Option (Nat × Nat)
  | [] => none
  | t@(_ :: cs) =>
    match matchEnvEnd t with
    | some n => some (0, n)
    | none => (findEnvEnd cs).map (fun p => (p.1 + 1, p.2))

/-- ENV_IN_INLINE_RE: a dollar, a greedy dollar-free run (so the latest
begin-environment opener in that run is preferred, backtracking to earlier
ones), the opener, a lazy body to the earliest end-environment closer, a
dollar-free tail, the closing dollar. Returns the captured group and the
total consumed length. -/
def matchEnvInline (s : Str) : Option (Str × Nat) :=
  match s with
  | '$' :: r =>
    let runLen := (r.takeWhile (· ≠ '$')).length
    ((List.range (runLen + 1)).reverse).findSome? (fun j =>
      if ("\\begin\x7b".data).isPrefixOf (r.drop j) then
        let r2 := r.drop (j + 7)
        let nm := r2.takeWhile (fun c => isAlphaC c || c = '*')
        if nm ≠ [] && (r2.get? nm.length == some '\x7d') then
          let r3 := r2.drop (nm.length + 1)
          match findEnvEnd r3 with
          | some p =>
            let r4 := r3.drop (p.1 + p.2)
            let tail := (r4.takeWhile (· ≠ '$')).length
            match r4.get? tail with
            | some '$' =>
              let glen := j + 7 + nm.length + 1 + p.1 + p.2 + tail
              some (r.take glen, 1 + glen + 1)
            | _ => none
          | none => none
        else none
      else none)
  | _ => none

/-- promote_envs_inline_to_display: wrap each match in doubled dollars. -/
def promote_envs_inline_to_display (text : Str) : Str :=
  runSub (fun _ s => (matchEnvInline s).map (fun p =>
    ("$$".data ++ p.1 ++ "$$".data, p.2))) text

/-- Index of the last newline in a whitespace run, used by the greedy
whitespace-then-newline fragments of ensure_blank_lines_around_display. -/
def lastNlIdx (w : Str) : Option Nat :=
  (w.reverse.findIdx? (· = '\n')).map (fun i => w.length - 1 - i)

/-- First spacing rule: horizontal space, two dollars, greedy whitespace
ending at its last newline; replaced by newline, dollars, newline. -/
def ebMatch1 (s : Str) : Option Nat :=
  let a := (s.takeWhile (fun c => c = ' ' || c = '\t')).length
  if ("$$".data).isPrefixOf (s.drop a) then
    let w := (s.drop (a + 2)).takeWhile pyIsSpace
    (lastNlIdx w).map (fun p => a + 2 + p + 1)
  else none

/-- Second spacing rule: a newline, whitespace, two dollars, trailing
whitespace; replaced by newline plus dollars. -/
def ebMatch2 (s : Str) : Option Nat :=
  match s with
  | '\n' :: r =>
    let w := (r.takeWhile pyIsSpace).length
    if ("$$".data).isPrefixOf (r.drop w) then
      let c := ((r.drop (w + 2)).takeWhile pyIsSpace).length
      some (1 + w + 2 + c)
    else none
  | _ => none

/-- Third spacing rule: a non-newline character, newline, two dollars;
a blank line is inserted before the dollars. -/
def ebMatch3 (s : Str) : Option (Str × Nat) :=
  match s with
  | c :: '\n' :: '$' :: '$' :: _ =>
    if c ≠ '\n' then some (c :: "\n\n$$".data, 4) else none
  | _ => none

/-- Fourth spacing rule: two dollars, newline, a non-newline character;
a blank line is inserted after the dollars. -/
def ebMatch4 (s : Str) : Option (Str × Nat) :=
  match s with
  | '$' :: '$' :: '\n' :: c :: _ =>
    if c ≠ '\n' then some ("$$\n\n".data ++ [c], 4) else none
  | _ => none

/-- Fifth spacing rule: two dollars, whitespace containing a newline, with
a lookahead for a numbered-list item (digits, a dot, a space); the
whitespace is replaced by a single blank line. -/
def ebMatch5 (s : Str) : Option Nat :=
  if ("$$".data).isPrefixOf s then
    let w := (s.drop 2).takeWhile pyIsSpace
    match lastNlIdx w with
    | some _ =>
      let r := s.drop (2 + w.length)
      let ds := r.takeWhile isDigitC
      if ds ≠ [] && (match r.drop ds.length with
                     | '.' :: ' ' :: _ => true
                     | _ => false) then
        some (2 + w.length)
      else none
    | none => none
  else none

/-- ensure_blank_lines_around_display: the five spacing substitutions in
order. -/
def ensure_blank_lines_around_display (text : Str) : Str :=
  let t1 := runSub (fun _ s => (ebMatch1 s).map (fun n => ("\n$$\n".data, n))) text
  let t2 := runSub (fun _ s => (ebMatch2 s).map (fun n => ("\n$$".data, n))) t1
  let t3 := runSub (fun _ s => ebMatch3 s) t2
  let t4 := runSub (fun _ s => ebMatch4 s) t3
  runSub (fun _ s => (ebMatch5 s).map (fun n => ("$$\n\n".data, n))) t4

/-- First inline-spacing rule: a dollar not preceded by a dollar, then
whitespace; the whitespace is removed. -/
def fiMatch1 (prev : Option Char) (s : Str) : Option Nat :=
  match s with
  | '$' :: r =>
    if prev ≠ some '$' then
      let w := (r.takeWhile pyIsSpace).length
      if w ≥ 1 then some (1 + w) else none
    else none
  | _ => none

/-- Second inline-spacing rule: whitespace, then a dollar not followed by
a dollar; the whitespace is removed. -/
def fiMatch2 (s : Str) : Option Nat :=
  let w := (s.takeWhile pyIsSpace).length
  if w ≥ 1 then
    match s.drop w with
    | '$' :: rest =>
      (match rest with
       | '$' :: _ => none
       | _ => some (w + 1))
    | _ => none
  else none

/-- Third inline-spacing rule: dollar, nonempty dollar-free body, dollar,
an alphanumeric character; a space is inserted before that character. -/
def fiMatch3 (s : Str) : Option (Str × Nat) :=
  match s with
  | '$' :: r =>
    let run := (r.takeWhile (· ≠ '$')).length
    if run ≥ 1 then
      match r.drop run with
      | '$' :: c :: _ =>
        if isAlnumC c then
          some ('$' :: r.take run ++ "$ ".data ++ [c], 1 + run + 1 + 1)
        else none
      | _ => none
    else none
  | _ => none

/-- Fourth inline-spacing rule: whitespace, dollar, a lazy nonempty
newline-free body (which may itself contain dollars), a dollar, then
whitespace; normalized to single surrounding spaces. The lazy body grows
to successive dollar positions until one is followed by whitespace. -/
def fiMatch4 (s : Str) : Option (Str × Nat) :=
  let a := (s.takeWhile pyIsSpace).length
  if a ≥ 1 then
    match s.drop a with
    | '$' :: t =>
      let reg := t.takeWhile (· ≠ '\n')
      ((List.range reg.length).drop 1).findSome? (fun m =>
        if reg.get? m = some '$' then
          let afterW := ((t.drop (m + 1)).takeWhile pyIsSpace).length
          if afterW ≥ 1 then
            some (" $".data ++ t.take m ++ "$ ".data, a + 1 + m + 1 + afterW)
          else none
        else none)
    | _ => none
  else none

/-- Fifth inline-spacing rule: a dollar not preceded by a dollar, then
whitespace, then a captured non-dollar character (the greedy whitespace
backtracks by one when the run is followed by a dollar or the end). -/
def fiMatch5 (prev : Option Char) (s : Str) : Option (Str × Nat) :=
  match s with
  | '$' :: r =>
    if prev ≠ some '$' then
      let w := r.takeWhile pyIsSpace
      if w.length ≥ 1 then
        match r.get? w.length with
        | some c =>
          if c ≠ '$' then some ("$".data ++ [c], 1 + w.length + 1)
          else if w.length ≥ 2 then
            some ("$".data ++ [w.getLastD ' '], 1 + w.length)
          else none
        | none =>
          if w.length ≥ 2 then
            some ("$".data ++ [w.getLastD ' '], 1 + w.length)
          else none
      else none
    else none
  | _ => none

/-- fix_inline_spacing: the five inline-spacing substitutions in order. -/
def fix_inline_spacing (text : Str) : Str :=
  let t1 := runSub (fun prev s => (fiMatch1 prev s).map (fun n => ("$".data, n))) text
  let t2 := runSub (fun _ s => (fiMatch2 s).map (fun n => ("$".data, n))) t1
  let t3 := runSub (fun _ s => fiMatch3 s) t2
  let t4 := runSub (fun _ s => fiMatch4 s) t3
  runSub (fun prev s => fiMatch5 prev s) t4

/-- First normalization rule: a run of three or more dollars collapses to
two. -/
def ndMatch1 (s : Str) : Option Nat :=
  let run := (s.takeWhile (· = '$')).length
  if run ≥ 3 then some run else none

/-- Second normalization rule: a display block whose body is a single
nonempty line collapses onto one physical line. -/
def ndMatch2 (s : Str) : Option (Str × Nat) :=
  if ("$$".data).isPrefixOf s then
    match eatNl (s.drop 2) with
    | some k1 =>
      let r := s.drop (2 + k1)
      let run := (r.takeWhile (fun c => c ≠ '\r' && c ≠ '\n')).length
      if run ≥ 1 then
        match eatNl (r.drop run) with
        | some k2 =>
          if ("$$".data).isPrefixOf (r.drop (run + k2)) then
            some ("$$".data ++ r.take run ++ "$$".data, 2 + k1 + run + k2 + 2)
          else none
        | none => none
      else none
    | none => none
  else none

/-- normalize_dollars: collapse long dollar runs, then collapse one-line
display blocks. -/
def normalize_dollars (text : Str) : Str :=
  let t1 := runSub (fun _ s => (ndMatch1 s).map (fun n => ("$$".data, n))) text
  runSub (fun _ s => ndMatch2 s) t1

/-- The master pipeline convert of src/fix_math_delims_clipboard.py.
Returns none exactly where the Python code raises IndexError (an
out-of-range protection-table lookup during placeholder restoration). -/
def convert (text : Str) : Option Str :=
  let st0 := protect text
  let p := convert_code_fences st0.1
  let p := convert_backslash_brackets p
  let p := convert_square_bracket_blocks p
  let p := fix_matrices_in_math_blocks p
  let st1 := protect_math p st0.2
  let st2 := protect_outer_math_parens st1.1 st1.2
  let p := convert_token_paren_numeric st2.1
  let p := convert_inline_parentheses p
  let p := promote_envs_inline_to_display p
  match unprotect_inl_only p st2.2 with
  | none => none
  | some p =>
    let p := fix_trailing_single_slashes_in_math p
    let p := fix_matrices_in_math_blocks p
    let p := ensure_blank_lines_around_display p
    let p := fix_inline_spacing p
    let p := normalize_dollars p
    unprotect p st2.2

/-- String-level wrapper of the pipeline. -/
def convertStr (s : String) : Option String :=
  (convert s.data).map (fun l => String.mk l)

/-- The composition the specification describes for the promoter stage:
identical to convert except that convert_token_paren_numeric runs before
the general stack-based scan protect_outer_math_parens. Written to compare
the code order against the claimed order. -/
def convertSpecOrder (text : Str) : Option Str :=
  let st0 := protect text
  let p := convert_code_fences st0.1
  let p := convert_backslash_brackets p
  let p := convert_square_bracket_blocks p
  let p := fix_matrices_in_math_blocks p
  let st1 := protect_math p st0.2
  let p := convert_token_paren_numeric st1.1
  let st2 := protect_outer_math_parens p st1.2
  let p := convert_inline_parentheses st2.1
  let p := promote_envs_inline_to_display p
  match unprotect_inl_only p st2.2 with
  | none => none
  | some p =>
    let p := fix_trailing_single_slashes_in_math p
    let p := fix_matrices_in_math_blocks p
    let p := ensure_blank_lines_around_display p
    let p := fix_inline_spacing p
    let p := normalize_dollars p
    unprotect p st2.2

/-- String-level wrapper of the specification-order composition. -/
def convertSpecOrderStr (s : String) : Option String :=
  (convertSpecOrder s.data).map (fun l => String.mk l)

/-- Collector driver: like the substitution driver but gathering the
matched data of every non-overlapping leftmost match. -/
def collectGo (f : Str → Option (α × Nat)) : Nat → Str → List α
  | 0, _ => []
  | _ + 1, [] => []
  | fuel + 1, s@(_ :: cs) =>
    match f s with
    | some (a, n) => a :: collectGo f fuel (s.drop (max n 1))
    | none => collectGo f fuel cs

/-- Run a collector over a whole string. -/
def collectAll (f : Str → Option (α × Nat)) (s : Str) : List α :=
  collectGo f (s.length + 1) s

/-- Interiors of the display-math blocks of a string (MATH_BLOCK_RE). -/
def mathBlockBodies (s : Str) : List Str :=
  collectAll (fun t => (matchDollarBlock t).map (fun n => ((t.drop 2).take (n - 4), n))) s

/-- Named environments and their bodies inside a string (MATRIX_ENV_RE). -/
def matrixEnvBodies (s : Str) : List (Str × Str) :=
  collectAll (fun t => (matchMatrixEnv t).map (fun p => ((p.1, p.2.1), p.2.2))) s

/-- The last non-empty row of a row list (blank meaning whitespace-only). -/
def lastNonemptyRow (rows : List Str) : Option Str :=
  (rows.filter (fun r => !(isBlankRow r))).getLast?

/-- Does a row end (modulo trailing whitespace) in a row-separator token,
two backslashes optionally annotated with a bracketed point directive. -/
def endsRowSepTok (row : Str) : Bool := (sepTailFind row).isSome

/-- Is a whole string shaped like an inline code span (INLINE_CODE_RE,
anchored to the full string). -/
def inlineCodeSpanShaped (t : Str) : Bool := matchInlineCode t = some t.length

/-! Helper lemmas about the scanners, used by the row-fixer theorems. -/

theorem findSome?_isSome_of_mem {α β : Type} {f : α → Option β} :
    ∀ {l : List α} {a : α}, a ∈ l → (f a).isSome → (l.findSome? f).isSome := by
  intro l
  induction l with
  | nil => intro a ha _; cases ha
  | cons hd tl ih =>
    intro a ha hfa
    rw [List.findSome?_cons]
    cases hhd : f hd with
    | some b => simp
    | none =>
      rcases List.mem_cons.mp ha with h | h
      · subst h; rw [hhd] at hfa; simp at hfa
      · exact ih h hfa

theorem exists_of_findSome?_eq_some {α β : Type} {f : α → Option β} :
    ∀ {l : List α} {b : β}, l.findSome? f = some b → ∃ a ∈ l, f a = some b := by
  intro l
  induction l with
  | nil => intro b h; simp [List.findSome?] at h
  | cons hd tl ih =>
    intro b h
    rw [List.findSome?_cons] at h
    cases hhd : f hd with
    | some c =>
      rw [hhd] at h
      exact ⟨hd, List.mem_cons_self hd tl, hhd.trans h⟩
    | none =>
      rw [hhd] at h
      obtain ⟨a, ha, hfa⟩ := ih h
      exact ⟨a, List.mem_cons_of_mem hd ha, hfa⟩

theorem takeWhile_all_append (p : Char → Bool) :
    ∀ (l r : Str), l.all p = true → (∀ c, r.head? = some c → p c = false) →
      (l ++ r).takeWhile p = l := by
  intro l
  induction l with
  | nil =>
    intro r _ hr
    cases r with
    | nil => rfl
    | cons c cs =>
      simp only [List.nil_append, List.takeWhile]
      rw [hr c rfl]
  | cons hd tl ih =>
    intro r hall hr
    simp only [List.all_cons, Bool.and_eq_true] at hall
    simp only [List.cons_append, List.takeWhile, hall.1]
    show hd :: List.takeWhile p (tl ++ r) = hd :: tl
    rw [ih r hall.2 hr]

/-- At offset equal to the core length, the separator tail test of
sepTailFind succeeds on a row of the form core plus two backslashes. -/
theorem sepTailFind_append_sep (core : Str) :
    (sepTailFind (core ++ ['\\', '\\'])).isSome = true := by
  apply findSome?_isSome_of_mem (a := core.length)
  · rw [List.mem_range, List.length_append]
    simp
  · have h1 : (core ++ ['\\', '\\']).get? core.length = some '\\' := by
      rw [List.get?_append_right (Nat.le_refl _)]
      simp
    have h2 : (core ++ ['\\', '\\']).get? (core.length + 1) = some '\\' := by
      rw [List.get?_append_right (Nat.le_succ_of_le (Nat.le_refl _))]
      simp
    have h3 : (core ++ ['\\', '\\']).drop (core.length + 2) = [] := by
      have : core.length + 2 = (core ++ ['\\', '\\']).length := by
        rw [List.length_append]; rfl
      rw [this, List.drop_length]
    simp only [sepTailFind, h1, h2, h3]
    simp [matchPtGroup]

/-- At offset equal to the core length, the separator tail test of
sepTailFind succeeds on a row of the form core, two backslashes, and a
bracketed point directive with a nonempty digit run. -/
theorem sepTailFind_append_pt (core ds : Str) (h1 : ds ≠ []) (h2 : ds.all isDigitC = true) :
    (sepTailFind (core ++ ('\\' :: '\\' :: '[' :: (ds ++ "pt]".data)))).isSome = true := by
  apply findSome?_isSome_of_mem (a := core.length)
  · rw [List.mem_range, List.length_append]
    simp only [List.length_cons]
    omega
  · have hg1 : (core ++ ('\\' :: '\\' :: '[' :: (ds ++ "pt]".data))).get? core.length
        = some '\\' := by
      rw [List.get?_append_right (Nat.le_refl _)]
      simp
    have hg2 : (core ++ ('\\' :: '\\' :: '[' :: (ds ++ "pt]".data))).get? (core.length + 1)
        = some '\\' := by
      rw [List.get?_append_right (Nat.le_succ_of_le (Nat.le_refl _))]
      simp
    have hd3 : (core ++ ('\\' :: '\\' :: '[' :: (ds ++ "pt]".data))).drop (core.length + 2)
        = '[' :: (ds ++ "pt]".data) := by
      have e : core.length + 2 = (core ++ ['\\', '\\']).length := by
        rw [List.length_append]; rfl
      have e2 : core ++ ('\\' :: '\\' :: '[' :: (ds ++ "pt]".data))
          = (core ++ ['\\', '\\']) ++ ('[' :: (ds ++ "pt]".data)) := by
        simp
      rw [e2, e, List.drop_left]
    have htw : (ds ++ "pt]".data).takeWhile isDigitC = ds := by
      apply takeWhile_all_append _ _ _ h2
      intro c hc
      simp only [String.data] at hc
      simp at hc
      subst hc
      decide
    have hdrop : (ds ++ "pt]".data).drop ds.length = "pt]".data := List.drop_left ds _
    have hrest : (ds ++ "pt]".data).drop (ds.length + 3) = [] := by
      have e : ds.length + 3 = (ds ++ "pt]".data).length := by
        rw [List.length_append]; rfl
      rw [e, List.drop_length]
    simp only [sepTailFind, hg1, hg2, hd3, matchPtGroup, htw, hdrop, hrest]
    simp [h1]

theorem all_takeWhile (p : Char → Bool) (l : Str) : (l.takeWhile p).all p = true := by
  induction l with
  | nil => rfl
  | cons hd tl ih =>
    by_cases h : p hd = true <;> simp [List.takeWhile, h, ih]

/-- A successful bracketed-point suffix match always captures a nonempty
digit run. -/
theorem matchPtSuffix_digits {line core0 ds : Str}
    (h : matchPtSuffix line = some (core0, ds)) :
    ds ≠ [] ∧ ds.all isDigitC = true := by
  obtain ⟨k, -, hfk⟩ := exists_of_findSome?_eq_some h
  simp only at hfk
  split at hfk
  · split at hfk
    · rename_i hguard
      rw [Bool.and_eq_true, decide_eq_true_iff] at hguard
      split at hfk
      · split at hfk
        · rw [Option.some_inj] at hfk
          injection hfk with ha hb
          subst hb
          exact ⟨hguard.1, all_takeWhile _ _⟩
        · exact absurd hfk (by simp)
      · exact absurd hfk (by simp)
    · exact absurd hfk (by simp)
  · exact absurd hfk (by simp)

/-- Any row emitted by fixRow with the last-row flag false is either blank
or passes the row-separator-or-continuation test of step three. -/
theorem rowSepCheck_fixRow (raw : Str) (h : fixRow false raw ≠ []) :
    rowSepCheck (fixRow false raw) = true := by
  unfold fixRow at h ⊢
  by_cases h0 : rstripWs raw = []
  · rw [if_pos h0] at h
    exact absurd h0 (by exact h)
  · rw [if_neg h0] at h ⊢
    cases hm : matchPtSuffix (rule1Line (rstripWs raw)) with
    | some pr =>
      obtain ⟨core0, ds⟩ := pr
      obtain ⟨hne, hdig⟩ := matchPtSuffix_digits hm
      simp only [hm]
      have hshape :
          (match sepTailFind (rstripWs core0) with
            | some j => (rstripWs core0).take j ++ ['\\']
            | none => rstripWs core0) ++ "\\\\[".data ++ ds ++ "pt]".data
          = (match sepTailFind (rstripWs core0) with
              | some j => (rstripWs core0).take j ++ ['\\']
              | none => rstripWs core0) ++ ('\\' :: '\\' :: '[' :: (ds ++ "pt]".data)) := by
        simp
      rw [hshape]
      simp [rowSepCheck, sepTailFind_append_pt _ ds hne hdig]
    | none =>
      simp only [hm] at h ⊢
      by_cases hsep : rowSepCheck (rule1Line (rstripWs raw)) = true
      · rw [if_pos hsep]
        exact hsep
      · rw [if_neg hsep]
        rw [if_neg hsep] at h
        simp only [Bool.false_eq_true, if_false] at h ⊢
        simp [rowSepCheck, sepTailFind_append_sep]

/-- Output rows of fixRows, pointwise: row i is computed by fixRow from
input row i and the blankness of all following rows. -/
theorem fixRows_get : ∀ (rows : List Str) (i : Nat), i < rows.length →
    (fixRows rows).getD i [] = fixRow ((rows.drop (i + 1)).all isBlankRow) (rows.getD i []) := by
  intro rows
  induction rows with
  | nil => intro i hi; cases hi
  | cons r rest ih =>
    intro i hi
    cases i with
    | zero => rfl
    | succ i' =>
      have hi' : i' < rest.length := Nat.lt_of_succ_lt_succ hi
      simpa [fixRows] using ih i' hi'

/-- Length preservation of fixRows. -/
theorem fixRows_length : ∀ (rows : List Str), (fixRows rows).length = rows.length := by
  intro rows
  induction rows with
  | nil => rfl
  | cons r rest ih => simp [fixRows, ih]

/-! Helper lemmas about bare all-letter words and the inline-parenthesis
rewrites. -/

theorem alpha_not_space {c : Char} (h : isAlphaC c = true) : pyIsSpace c = false := by
  by_contra hc
  rw [Bool.not_eq_false] at hc
  simp only [pyIsSpace, Bool.or_eq_true, decide_eq_true_eq] at hc
  rcases hc with ((((rfl | rfl) | rfl) | rfl) | rfl) | rfl <;> exact absurd h (by decide)

theorem alpha_not_digit {c : Char} (h : isAlphaC c = true) : isDigitC c = false := by
  by_contra hc
  rw [Bool.not_eq_false] at hc
  simp only [isDigitC, Bool.and_eq_true, decide_eq_true_eq] at hc
  simp only [isAlphaC, Bool.or_eq_true, Bool.and_eq_true, decide_eq_true_eq] at h
  rcases h with ⟨h1, -⟩ | ⟨h1, -⟩ <;> exact absurd (le_trans h1 hc.2) (by decide)

theorem mem_all_alpha {w : Str} {c : Char} (hall : w.all isAlphaC = true) (hc : c ∈ w) :
    isAlphaC c = true := by
  rw [List.all_eq_true] at hall
  exact hall c hc

theorem dropWhile_all_false (p : Char → Bool) (l : Str) (h : ∀ c ∈ l, p c = false) :
    l.dropWhile p = l := by
  cases l with
  | nil => rfl
  | cons hd tl => simp [List.dropWhile, h hd (List.mem_cons_self hd tl)]

theorem stripWs_eq_self_of_all_alpha {w : Str} (hall : w.all isAlphaC = true) :
    stripWs w = w := by
  have hns : ∀ c ∈ w, pyIsSpace c = false := fun c hc =>
    alpha_not_space (mem_all_alpha hall hc)
  have hl : lstripWs w = w := dropWhile_all_false _ _ hns
  rw [stripWs, hl, rstripWs]
  rw [dropWhile_all_false _ _ (fun c hc => hns c (List.mem_reverse.mp hc))]
  exact List.reverse_reverse w

theorem no_latex_of_all_alpha {w : Str} (hall : w.all isAlphaC = true) :
    looks_like_latex w = false := by
  by_contra h
  rw [Bool.not_eq_false, looks_like_latex, List.any_eq_true] at h
  obtain ⟨t, ht, hsub⟩ := h
  have hheads : latexTokens.all (fun u => u.head? == some '\\') = true := by decide
  rw [List.all_eq_true] at hheads
  have hhead := hheads t ht
  rw [beq_iff_eq] at hhead
  rw [containsSubstr, List.any_eq_true] at hsub
  obtain ⟨u, hu, hpre⟩ := hsub
  have hsuf : u <:+ w := by
    rw [List.mem_tails] at hu
    exact hu
  have hpre' : t <+: u := by
    rw [List.isPrefixOf_iff_prefix] at hpre
    exact hpre
  cases t with
  | nil => simp at hhead
  | cons a t' =>
    have ha : a = '\\' := by simpa using hhead
    subst ha
    have hmem : '\\' ∈ w := hsuf.subset (hpre'.subset (List.mem_cons_self _ _))
    exact absurd (mem_all_alpha hall hmem) (by decide)

theorem no_ops_of_all_alpha {w : Str} (hall : w.all isAlphaC = true) :
    (("=+*/^_".data).any (fun ch => w.contains ch)) = false := by
  by_contra h
  rw [Bool.not_eq_false, List.any_eq_true] at h
  obtain ⟨c, hc, hcw⟩ := h
  have hmem : c ∈ w := List.elem_iff.mp hcw
  have halpha := mem_all_alpha hall hmem
  have hlist : ("=+*/^_".data) = ['=', '+', '*', '/', '^', '_'] := rfl
  rw [hlist] at hc
  simp only [List.mem_cons, List.not_mem_nil, or_false] at hc
  rcases hc with rfl | rfl | rfl | rfl | rfl | rfl <;> exact absurd halpha (by decide)

theorem no_digit_of_all_alpha {w : Str} (hall : w.all isAlphaC = true) :
    w.any isDigitC = false := by
  by_contra h
  rw [Bool.not_eq_false, List.any_eq_true] at h
  obtain ⟨c, hc, hdig⟩ := h
  rw [alpha_not_digit (mem_all_alpha hall hc)] at hdig
  exact absurd hdig (by simp)

theorem funcShape_false_of_all_alpha {w : Str} (hall : w.all isAlphaC = true) :
    funcShape w = false := by
  cases w with
  | nil => rfl
  | cons c r =>
    cases r with
    | nil => simp [funcShape]
    | cons d r' =>
      have hd : isAlphaC d = true := mem_all_alpha hall (by simp)
      have hne : d ≠ '(' := by
        intro hdeq
        subst hdeq
        exact absurd hd (by decide)
      simp only [funcShape, List.takeWhile_cons, alpha_not_space hd, Bool.false_eq_true,
        if_false, List.length_nil, List.drop_zero]
      rw [Bool.and_eq_false_iff]
      right
      split
      · rename_i heq
        injection heq with h1 _
        exact absurd h1 hne
      · rfl

theorem allow_false_of_long {w : Str} (h : 2 ≤ w.length) : allowSet.contains w = false := by
  by_contra hc
  rw [Bool.not_eq_false] at hc
  have hmem : w ∈ allowSet := List.elem_iff.mp hc
  have hone : allowSet.all (fun u => u.length == 1) = true := by decide
  rw [List.all_eq_true] at hone
  have h1 := hone w hmem
  rw [beq_iff_eq] at h1
  omega

theorem candidate_false_of_bare_word {w : Str} (hall : w.all isAlphaC = true)
    (hlen : 2 ≤ w.length) (hdw : isDWord w = false) :
    is_inline_math_candidate w = false := by
  unfold is_inline_math_candidate
  rw [no_latex_of_all_alpha hall, no_ops_of_all_alpha hall, no_digit_of_all_alpha hall,
      funcShape_false_of_all_alpha hall, allow_false_of_long hlen, hdw]
  rfl

/-- The single-layer replacement of convert_inline_parentheses leaves a
span unchanged whenever its interior is a bare all-letter word of at
least two letters that is not a differential d-word. -/
theorem inlineParenRepl_bare_word (w whole : Str) (hall : w.all isAlphaC = true)
    (hlen : 2 ≤ w.length) (hdw : isDWord w = false) :
    inlineParenRepl w whole = whole := by
  unfold inlineParenRepl
  split
  · rfl
  · rw [stripWs_eq_self_of_all_alpha hall, allow_false_of_long hlen, hdw,
        candidate_false_of_bare_word hall hlen hdw]
    rfl

/-- A substitution whose matcher consumes the entire input in one match
returns just the replacement. -/
theorem runSub_total_match (f : Option Char → Str → Option (Str × Nat)) (c : Char)
    (cs rep : Str) (hm : f none (c :: cs) = some (rep, (c :: cs).length)) :
    runSub f (c :: cs) = rep := by
  rw [runSub, subGo, hm]
  dsimp only
  have hmax : max (c :: cs).length 1 = (c :: cs).length := by
    simp only [List.length_cons]
    omega
  rw [hmax, List.drop_length]
  have hs : (c :: cs).length = cs.length + 1 := rfl
  rw [hs, subGo]
  rw [List.append_nil]

/-- The double-layer rewrite of convert_inline_parentheses wraps every
double-parenthesized span of one to one hundred sixty interior characters
free of parentheses and line breaks, unconditionally. -/
theorem double_paren_sub_wraps (inner : Str) (h1 : 1 ≤ inner.length)
    (h2 : inner.length ≤ 160) (h3 : inner.all parenFree = true) :
    double_paren_sub ('(' :: '(' :: (inner ++ [')', ')'])) =
      "$(".data ++ stripWs inner ++ ")$".data := by
  have htw : (inner ++ [')', ')']).takeWhile parenFree = inner := by
    apply takeWhile_all_append _ _ _ h3
    intro c hc
    have hcc : ')' = c := by simpa using hc
    subst hcc
    rfl
  have hmatch : matchDoubleParen ('(' :: '(' :: (inner ++ [')', ')'])) =
      some (inner, inner.length + 4) := by
    simp only [matchDoubleParen, htw]
    rw [List.drop_left, List.take_left]
    simp [h1, h2]
  have hlen : inner.length + 4 = ('(' :: ('(' :: (inner ++ [')', ')']))).length := by
    simp only [List.length_cons, List.length_append, List.length_nil]
  rw [double_paren_sub]
  apply runSub_total_match
  rw [hmatch, ← hlen]
  rfl

/-! Claim theorems. -/

/-- C6: convert applied to the exact input of Scenario A, a
backslash-bracket display form with interior spaces, returns exactly the
display block with the body on its own line and the interior spacing of
the body preserved. -/
theorem scenarioA_display_block :
    convertStr "\\[ x + y \\]" = some "$$\nx + y\n$$" := by rfl

/-- C2 is refuted by the code: convert is not total. On the input
consisting of a literal placeholder-shaped token whose index exceeds the
protection table, the restoration pass _unprotect indexes past the end of
the (empty) table, which the Python code surfaces as an IndexError and the
embedding models as none. -/
theorem convert_fails_on_literal_placeholder :
    convertStr "@@MATH_7@@" = none := by rfl

/-- C5 is refuted by the code: on the exact Scenario B input, the
fix_inline_spacing pass removes the prose spaces around the promoted
span (its whitespace rules cannot tell an opening from a closing dollar,
and its fifth rule undoes the space its third rule inserts), so convert
returns the glued form rather than the claimed output with surrounding
spacing preserved. -/
theorem scenarioB_spacing_collapsed :
    convertStr "The value (x+1) is positive." = some "The value$x+1$is positive." ∧
    (some "The value$x+1$is positive." : Option String) ≠
      some "The value $x+1$ is positive." := by
  exact ⟨by rfl, by decide⟩

/-- C1 is refuted by the code: convert is not idempotent. On the doubled
parenthesis input the first run wraps the outer span as inline math with
the inner parentheses kept, and the second run re-promotes that interior
to a display block, so running the pipeline twice alters the text
further. -/
theorem convert_not_idempotent :
    convertStr "((aa+bb))" = some "$(aa+bb)$" ∧
    convertStr "$(aa+bb)$" = some "\n$$aa+bb\n\n$$" ∧
    (convertStr "((aa+bb))").bind convertStr ≠ convertStr "((aa+bb))" := by
  refine ⟨by rfl, by rfl, ?_⟩
  intro h
  rw [show convertStr "((aa+bb))" = some "$(aa+bb)$" from rfl] at h
  rw [show (some "$(aa+bb)$").bind convertStr = convertStr "$(aa+bb)$" from rfl] at h
  rw [show convertStr "$(aa+bb)$" = some "\n$$aa+bb\n\n$$" from rfl] at h
  exact absurd (Option.some_inj.mp h) (by decide)

/-- C3 is refuted by the code: the protection invariant fails outright.
When a literal fenced block lies inside an inline code span, the fence is
masked first, the inline-code pass then captures its span together with
the fence placeholder, and the single-pass restoration splices that table
entry back without rescanning it, so the internal CODEFENCE placeholder
leaks into the output and the fence substring never reappears. A second,
milder failure mode: a substring merely shaped like an inline code span
that overlaps two selected spans has the text between them rewritten. -/
theorem fence_inside_inline_code_leaks_placeholder :
    (matchFence ("```a\nb\n```".data) = some (("```a\nb\n```".data).length) ∧
     containsSubstr ("```a\nb\n```".data) ("`x ```a\nb\n``` y`".data) = true ∧
     convertStr "`x ```a\nb\n``` y`" = some "`x @@CODEFENCE_0@@ y`" ∧
     containsSubstr ("```a\nb\n```".data) ("`x @@CODEFENCE_0@@ y`".data) = false) ∧
    (inlineCodeSpanShaped ("` (x+y=z) `".data) = true ∧
     containsSubstr ("` (x+y=z) `".data) ("`a` (x+y=z) `b`".data) = true ∧
     convertStr "`a` (x+y=z) `b`" = some "`a`$x+y=z$`b`" ∧
     containsSubstr ("` (x+y=z) `".data) ("`a`$x+y=z$`b`".data) = false) := by
  exact ⟨⟨by decide, by decide, by rfl, by decide⟩,
         ⟨by decide, by decide, by rfl, by decide⟩⟩

/-- C8 counterexample: the double-layer span of Scenario C's doubled
variant is not left unchanged: the first rewrite of
convert_inline_parentheses wraps any double-parenthesized span
unconditionally, without consulting the classifier, and the spacing pass
then glues the result to the neighbouring words. -/
theorem double_layer_not_preserved :
    convertStr "This is ((however)) fine." = some "This is$(however)$fine." ∧
    (some "This is$(however)$fine." : Option String) ≠
      some "This is ((however)) fine." := by
  exact ⟨by rfl, by decide⟩

/-- C8 (amended): the single-layer replacement of
convert_inline_parentheses maps every span whose interior is a bare
all-letter word of at least two letters — other than the d-shaped
differential words, which it wraps — to itself, so such spans pass
through unchanged and Scenario C survives convert verbatim; but the
double-parenthesis rewrite wraps every double-layer span of one to one
hundred sixty parenthesis-free, newline-free interior characters
unconditionally, never consulting the classifier. -/
theorem inline_paren_bare_word_policy :
    (∀ w whole : Str, w.all isAlphaC = true → 2 ≤ w.length → isDWord w = false →
      inlineParenRepl w whole = whole) ∧
    (∀ inner : Str, 1 ≤ inner.length → inner.length ≤ 160 → inner.all parenFree = true →
      double_paren_sub ('(' :: '(' :: (inner ++ [')', ')'])) =
        "$(".data ++ stripWs inner ++ ")$".data) ∧
    convertStr "This is (however) fine." = some "This is (however) fine." ∧
    convertStr "This is ((however)) fine." = some "This is$(however)$fine." :=
  ⟨inlineParenRepl_bare_word, double_paren_sub_wraps, by rfl, by rfl⟩

/-- C8 witness: the amended inline-parenthesis theorem applied at the
concrete bare word of Scenario C, for both the single-layer replacement
and the double-layer rewrite. -/
theorem inline_paren_bare_word_policy_witness :
    inlineParenRepl ("however".data) ("(however)".data) = ("(however)".data) ∧
    double_paren_sub ("((however))".data) = ("$(however)$".data) := by
  constructor
  · exact inline_paren_bare_word_policy.1 ("however".data) ("(however)".data)
      (by decide) (by decide) (by decide)
  · have h := inline_paren_bare_word_policy.2.1 ("however".data)
      (by decide) (by decide) (by decide)
    exact h

/-- C7 counterexample: a span whose only operator-class character is the
hyphen is not accepted by the inline classifier
is_inline_math_candidate, although the hyphen belongs to the cited
operator class MATHISH_OP_RE; consequently a short hyphenated span is not
promoted by convert. -/
theorem hyphen_span_not_promoted :
    mathishOps.contains '-' = true ∧
    ('-' ∈ ("a-b".data)) ∧
    is_inline_math_candidate ("a-b".data) = false ∧
    convertStr "See (a-b) here." = some "See (a-b) here." := by
  exact ⟨by decide, by decide, by decide, by rfl⟩

/-- C7 (amended): the inline classifier answers true for any span
containing one of the characters equal, plus, star, slash, caret,
underscore; the hyphen is absent from its operator set (it is only in
MATHISH_OP_RE, used by the outer-paren scan), so a hyphen alone does not
qualify a span. -/
theorem classifier_true_of_operator (s : Str) (c : Char) (hcs : c ∈ s)
    (hop : c ∈ ("=+*/^_".data)) : is_inline_math_candidate s = true := by
  have h : (("=+*/^_".data).any (fun ch => s.contains ch)) = true := by
    rw [List.any_eq_true]
    exact ⟨c, hop, (List.elem_iff).mpr hcs⟩
  unfold is_inline_math_candidate
  rw [h]
  simp

/-- C7 witness: the amended classifier theorem applied at a concrete
span containing a plus sign. -/
theorem classifier_true_of_operator_witness :
    is_inline_math_candidate ("a+b".data) = true :=
  classifier_true_of_operator ("a+b".data) '+' (by decide) (by decide)

/-- C9 counterexample: convert does not equal the composition in which
convert_token_paren_numeric runs before the general scan: on a
token-shaped input the two orders produce different outputs. -/
theorem convert_order_differs_from_spec :
    convertStr "f(x+abc)" = some "f$x+abc$" ∧
    convertSpecOrderStr "f(x+abc)" = some "$f$x+abc$$" ∧
    convertStr "f(x+abc)" ≠ convertSpecOrderStr "f(x+abc)" := by
  refine ⟨by rfl, by rfl, ?_⟩
  intro h
  rw [show convertStr "f(x+abc)" = some "f$x+abc$" from rfl,
      show convertSpecOrderStr "f(x+abc)" = some "$f$x+abc$$" from rfl] at h
  exact absurd (Option.some_inj.mp h) (by decide)

/-- C9 (amended): in convert the general stack-based scan
protect_outer_math_parens runs first and consumes any span it selects, so
a letter-followed-by-argument shape is wrapped without its leading letter;
the later convert_token_paren_numeric pass finds no parenthesis left. -/
theorem outer_scan_runs_first :
    protect_outer_math_parens ("f(x+abc)".data) [] =
      (("f@@INL_0@@".data), [("$x+abc$".data)]) ∧
    convert_token_paren_numeric ("f@@INL_0@@".data) = ("f@@INL_0@@".data) ∧
    convertStr "f(x+abc)" = some "f$x+abc$" := by
  exact ⟨by rfl, by rfl, by rfl⟩

/-- C4 counterexample: the output of convert can contain a matrix
environment inside display math whose last non-empty row ends in a row
separator: the row fixer never strips a pre-existing trailing separator
from the final row, so the second half of the claim fails. -/
theorem last_row_separator_kept :
    convertStr "$$\n\\begin{matrix}\na \\\\\n\\end{matrix}\n$$" =
      some "$$\n\\begin{matrix}\na \\\\\n\\end{matrix}\n$$" ∧
    ((mathBlockBodies (("$$\n\\begin{matrix}\na \\\\\n\\end{matrix}\n$$").data)).bind
      matrixEnvBodies) = [("matrix".data, "\na \\\\\n".data)] ∧
    lastNonemptyRow (splitlines (stripNlEnds ("\na \\\\\n".data))) = some ("a \\\\".data) ∧
    endsRowSepTok ("a \\\\".data) = true := by
  exact ⟨by rfl, by decide, by decide, by decide⟩

/-- C4 (amended): for every environment body, every output row of the row
fixer that is not blank and is not the last non-empty row passes the
source's own row-separator-or-continuation test: it ends (modulo trailing
whitespace) in a double-backslash separator, a separator annotated with a
bracketed point directive, or a row-continuation ampersand. The last
non-empty row is left as given and may retain a pre-existing separator. -/
theorem fixRows_row_separator_completeness (rows : List Str) (i : Nat)
    (hi : i < rows.length)
    (hlast : (rows.drop (i + 1)).all isBlankRow = false)
    (hnb : (fixRows rows).getD i [] ≠ []) :
    rowSepCheck ((fixRows rows).getD i []) = true := by
  rw [fixRows_get rows i hi] at hnb ⊢
  rw [hlast] at hnb ⊢
  exact rowSepCheck_fixRow _ hnb

/-- C4 witness: the amended row-separator theorem applied at a concrete
two-row environment whose first row lacks a separator. -/
theorem fixRows_row_separator_completeness_witness :
    rowSepCheck ((fixRows ["a".data, "b".data]).getD 0 []) = true :=
  fixRows_row_separator_completeness ["a".data, "b".data] 0 (by decide) (by decide)
    (by decide)

/-- C10 counterexample: a whitespace-only line inside an environment body
is not passed through unchanged: the row fixer right-strips every row, so
the blank line comes out empty. -/
theorem blank_row_whitespace_stripped :
    (splitlines (stripNlEnds ("a\n  \nb".data))).getD 1 [] = ("  ".data) ∧
    (fixRows (splitlines (stripNlEnds ("a\n  \nb".data)))).getD 1 [] = [] ∧
    ("  ".data ≠ ([] : Str)) ∧
    fixMatrixRows ("a\n  \nb".data) = ("a\\\\\n\nb".data) := by
  exact ⟨by decide, by decide, by decide, by decide⟩

/-- C10 (amended): the row fixer emits exactly one output row per input
row of the newline-stripped, line-split body, never adding, deleting,
merging or reordering rows: the output length equals the input length and
row i of the output is computed from row i of the input alone (plus the
blankness of the following rows). Blank rows come out as empty rows
(their trailing whitespace is stripped). -/
theorem fixRows_length_and_pointwise (rows : List Str) :
    (fixRows rows).length = rows.length ∧
    ∀ i, i < rows.length →
      (fixRows rows).getD i [] =
        fixRow ((rows.drop (i + 1)).all isBlankRow) (rows.getD i []) :=
  ⟨fixRows_length rows, fun i hi => fixRows_get rows i hi⟩

/-- C10 witness: the amended theorem applied at a concrete body with a
whitespace-only middle row: the row count is preserved and the blank row
comes out empty. -/
theorem fixRows_length_and_pointwise_witness :
    (fixRows ["a".data, "  ".data, "b".data]).length = 3 ∧
    (fixRows ["a".data, "  ".data, "b".data]).getD 1 [] = [] := by
  have h := fixRows_length_and_pointwise ["a".data, "  ".data, "b".data]
  refine ⟨h.1, ?_⟩
  rw [h.2 1 (by decide)]
  decide

end FixMathDelims
